import Mathlib

/-
  Verification development for the edna-dataportal faceted query engine
  (bpaotu/query.py, bpaotu/otu.py), as a shallow embedding.

  The persistence layer is modelled relationally: a table is a Lean list of
  rows, a SELECT without ORDER BY returns rows in table (list) order, a
  filter keeps exactly the rows on which the SQL condition evaluates to
  TRUE (SQL three-valued logic: a condition on a NULL column evaluates to
  NULL, and NOT NULL = NULL, so such rows are dropped by both a condition
  and its negation).  Python floats are modelled as exact rationals.
-/

set_option maxRecDepth 100000

namespace Edna

/-- An operator/value dictionary as passed to apply_op_and_val_filter in
query.py: operator and value keys may each be absent (None). -/
structure OpVal (α : Type) where
  operator : Option String
  value : Option α
  deriving DecidableEq

/-- Embeds apply_op_and_val_filter (query.py:982).  The query is a row list;
attr is the selected column, which is nullable.  When the filter dict is
None or its value is None the query is returned unchanged; when the
operator is the string isnot an inequality condition is added, otherwise
(operator missing defaults to is, and every other operator string) an
equality condition.  SQL semantics: a NULL attribute satisfies neither the
equality nor the inequality condition. -/
def applyOpAndValFilter {ρ α : Type} [DecidableEq α] (attr : ρ → Option α)
    (q : List ρ) (opAndVal : Option (OpVal α)) : List ρ :=
  match opAndVal with
  | none => q
  | some ov =>
    match ov.value with
    | none => q
    | some v =>
      if ov.operator.getD "is" = "isnot" then
        q.filter (fun row => match attr row with
          | some w => decide (w ≠ v)
          | none => false)
      else
        q.filter (fun row => match attr row with
          | some w => decide (w = v)
          | none => false)

/-- Modelled from the claim wording for apply_op_and_val_filter: the
inequality condition is added exactly when the operator field is the
string isnot; any other operator string, and a missing operator field,
yield the equality condition; a filter that is None or whose value is
None leaves the query unchanged. -/
def applyOpAndValFilterClaim {ρ α : Type} [DecidableEq α] (attr : ρ → Option α)
    (q : List ρ) (opAndVal : Option (OpVal α)) : List ρ :=
  match opAndVal with
  | none => q
  | some ov =>
    match ov.value with
    | none => q
    | some v =>
      match ov.operator with
      | some op =>
        if op = "isnot" then
          q.filter (fun row => match attr row with
            | some w => decide (w ≠ v)
            | none => false)
        else
          q.filter (fun row => match attr row with
            | some w => decide (w = v)
            | none => false)
      | none =>
        q.filter (fun row => match attr row with
          | some w => decide (w = v)
          | none => false)

/-- Claim C10: apply_op_and_val_filter adds the inequality condition
attr != value exactly when the operator field is the string isnot; any
other operator string, and a missing operator field, yield the equality
condition attr == value; a filter that is None or whose value is None
leaves the query unchanged. -/
theorem apply_op_and_val_filter_cases {ρ α : Type} [DecidableEq α]
    (attr : ρ → Option α) (q : List ρ) (opAndVal : Option (OpVal α)) :
    applyOpAndValFilter attr q opAndVal = applyOpAndValFilterClaim attr q opAndVal := by
  match opAndVal with
  | none => rfl
  | some ov =>
    match hv : ov.value with
    | none => simp [applyOpAndValFilter, applyOpAndValFilterClaim, hv]
    | some v =>
      match hop : ov.operator with
      | none => simp [applyOpAndValFilter, applyOpAndValFilterClaim, hv, hop, Option.getD]
      | some op =>
        by_cases h : op = "isnot" <;>
          simp [applyOpAndValFilter, applyOpAndValFilterClaim, hv, hop, Option.getD, h]

/-- An OTU (taxon) row, from class OTU in otu.py: each rank column and the
amplicon column is a nullable foreign key into the corresponding ontology
table (NULL = unclassified at that rank).  Columns not consulted by the
query engine under verification (code, endemic) are omitted. -/
structure OTURow where
  id : Int
  kingdom_id : Option Int
  phylum_id : Option Int
  class_id : Option Int
  order_id : Option Int
  family_id : Option Int
  genus_id : Option Int
  species_id : Option Int
  amplicon_id : Option Int
  deriving DecidableEq

/-- The taxonomy hierarchy of TaxonomyOptions.hierarchy (query.py:50):
attribute names paired with the column accessor that getattr(OTU, attr)
denotes. -/
def hierarchyAttrs : List (String × (OTURow → Option Int)) :=
  [("kingdom_id", OTURow.kingdom_id),
   ("phylum_id", OTURow.phylum_id),
   ("class_id", OTURow.class_id),
   ("order_id", OTURow.order_id),
   ("family_id", OTURow.family_id),
   ("genus_id", OTURow.genus_id),
   ("species_id", OTURow.species_id)]

/-- Embeds apply_otu_filter (query.py:993): filter an OTU query on one
hierarchy column. -/
def applyOtuFilter (attr : OTURow → Option Int) (q : List OTURow)
    (opAndVal : Option (OpVal Int)) : List OTURow :=
  applyOpAndValFilter attr q opAndVal

/-- Embeds apply_amplicon_filter = partial(apply_otu_filter, amplicon_id)
(query.py:997). -/
def applyAmpliconFilter (q : List OTURow) (opAndVal : Option (OpVal Int)) : List OTURow :=
  applyOtuFilter OTURow.amplicon_id q opAndVal

/-- The value a taxonomy-filter slot selects: None when the slot itself is
None or its value key is None (the emptiness test of determine_target,
query.py:96). -/
def slotVal (slot : Option (OpVal Int)) : Option Int :=
  slot.bind (fun ov => ov.value)

/-- The scanning loop of determine_target inside
TaxonomyOptions._possibilities (query.py:90).  q starts as the
amplicon-filtered taxon set (the source keeps a grouped count query; its
count is positive exactly when the filtered set is non-empty, so the
embedding keeps the row set itself).  At each rank, an empty slot or a
slot whose accumulated filter leaves no taxa is the target; otherwise the
filter is kept and the scan moves one rank deeper. -/
def determineTargetAux (q : List OTURow)
    (hier : List (String × (OTURow → Option Int)))
    (state : List (Option (OpVal Int))) (idx : Nat) : Option Nat :=
  match hier, state with
  | [], _ => none
  | _, [] => none
  | (_, attr) :: hs, slot :: ss =>
    match slotVal slot with
    | none => some idx
    | some _ =>
      let q2 := applyOtuFilter attr q slot
      if q2.isEmpty then some idx
      else determineTargetAux q2 hs ss (idx + 1)

/-- determine_target over the full hierarchy of an OTU table, given the
amplicon filter and the taxonomy state (query.py:90-103). Returns the
index of the first invalid rank, or none for a complete valid hierarchy. -/
def determineTarget (otus : List OTURow) (amplicon : Option (OpVal Int))
    (state : List (Option (OpVal Int))) : Option Nat :=
  determineTargetAux (applyAmpliconFilter otus amplicon) hierarchyAttrs state 0

/-- Index of the first empty slot (None, or value None) of a taxonomy
state. -/
def firstEmptyAux (state : List (Option (OpVal Int))) (idx : Nat) : Option Nat :=
  match state with
  | [] => none
  | slot :: ss =>
    match slotVal slot with
    | none => some idx
    | some _ => firstEmptyAux ss (idx + 1)

/-- Index of the first empty slot of a taxonomy state, counting from the
kingdom rank. -/
def firstEmptySlot (state : List (Option (OpVal Int))) : Option Nat :=
  firstEmptyAux state 0

/-- A taxonomy state is valid over a taxon set when every filled slot,
taken together with the filled slots before it, still selects a non-empty
taxon set.  The scan stops caring after the first empty slot, because the
resolver never reads past it. -/
def validState (q : List OTURow)
    (hier : List (String × (OTURow → Option Int)))
    (state : List (Option (OpVal Int))) : Bool :=
  match hier, state with
  | (_, attr) :: hs, slot :: ss =>
    match slotVal slot with
    | none => true
    | some _ =>
      let q2 := applyOtuFilter attr q slot
      !q2.isEmpty && validState q2 hs ss
  | _, _ => true

theorem determineTargetAux_firstEmpty (hier : List (String × (OTURow → Option Int))) :
    ∀ (state : List (Option (OpVal Int))) (q : List OTURow) (idx : Nat),
    validState q hier state = true →
    ∀ t e, determineTargetAux q hier state idx = some t →
      firstEmptyAux state idx = some e → e ≤ t := by
  induction hier with
  | nil => intro state q idx _ t e ht _; simp [determineTargetAux] at ht
  | cons p hs ih =>
    intro state q idx hv t e ht he
    match state with
    | [] => simp [determineTargetAux] at ht
    | slot :: ss =>
      match hsv : slotVal slot with
      | none =>
        simp [determineTargetAux, hsv] at ht
        simp [firstEmptyAux, hsv] at he
        omega
      | some v =>
        simp only [validState, hsv] at hv
        simp only [determineTargetAux, hsv] at ht
        simp only [firstEmptyAux, hsv] at he
        rw [Bool.and_eq_true] at hv
        rw [if_neg (by simp [Bool.not_eq_true'] at hv; simp [hv.1])] at ht
        exact ih ss _ (idx + 1) hv.2 t e ht he

/-- Claim C7: for every valid taxonomy state (every filled slot's value,
with the slots before it, selects a non-empty taxon set) and every
amplicon filter, the target rank determined by determine_target inside
TaxonomyOptions._possibilities is never at a shallower hierarchy index
than the first empty slot of the input state. -/
theorem target_not_shallower_than_first_empty
    (otus : List OTURow) (amplicon : Option (OpVal Int))
    (state : List (Option (OpVal Int)))
    (hvalid : validState (applyAmpliconFilter otus amplicon) hierarchyAttrs state = true)
    (t e : Nat)
    (ht : determineTarget otus amplicon state = some t)
    (he : firstEmptySlot state = some e) : e ≤ t :=
  determineTargetAux_firstEmpty hierarchyAttrs state _ 0 hvalid t e ht he

/-- Witness for target_not_shallower_than_first_empty: a single taxon, the
kingdom slot filled with a matching value, deeper slots empty. -/
def exTaxon : OTURow :=
  { id := 1, kingdom_id := some 1, phylum_id := some 1, class_id := some 1,
    order_id := some 1, family_id := some 1, genus_id := some 1,
    species_id := some 1, amplicon_id := some 10 }

theorem target_not_shallower_witness :
    determineTarget [exTaxon] none
      [some ⟨some "is", some 1⟩, none, none, none, none, none, none] = some 1 ∧ (1 : Nat) ≤ 1 :=
  ⟨by decide,
   target_not_shallower_than_first_empty [exTaxon] none
     [some ⟨some "is", some 1⟩, none, none, none, none, none, none]
     (by decide) 1 1 (by decide) (by decide)⟩

/-- The taxonomy portion of the data store: the taxon table plus the seven
ontology (id, label) tables, one per rank.  Each ontology table is kept in
table order: a SELECT without ORDER BY returns that order. -/
structure TaxonomyDB where
  otus : List OTURow
  kingdoms : List (Int × String)
  phyla : List (Int × String)
  classes : List (Int × String)
  orders : List (Int × String)
  families : List (Int × String)
  genera : List (Int × String)
  species : List (Int × String)
  deriving DecidableEq

/-- The ontology table of the rank at hierarchy index k. -/
def tableAt (db : TaxonomyDB) : Nat → List (Int × String)
  | 0 => db.kingdoms
  | 1 => db.phyla
  | 2 => db.classes
  | 3 => db.orders
  | 4 => db.families
  | 5 => db.genera
  | 6 => db.species
  | _ => []

/-- Column accessor of the rank at hierarchy index k. -/
def attrAt (k : Nat) : OTURow → Option Int :=
  (hierarchyAttrs.getD k ("", fun _ => none)).2

/-- drop_id from _possibilities (query.py:86): attr[:-3], the attribute
name without its _id suffix. -/
def dropId (s : String) : String := s.dropRight 3

/-- Label lookup in an ontology table (the join to target_class in
query.py:125; id is the table's primary key). -/
def lookupLabel (tbl : List (Int × String)) (i : Int) : Option String :=
  (tbl.find? (fun e => e.1 == i)).map (fun e => e.2)

/-- SELECT DISTINCT: first occurrences, in query order. -/
def dedupKeepFirst {α : Type} [DecidableEq α] : List α → List α
  | [] => []
  | a :: as => a :: (dedupKeepFirst as).filter (fun b => !(b == a))

/-- Lexicographic less-or-equal on code-point lists: the stable text
collation used to model ORDER BY label (for the ASCII labels of this
store it coincides with byte order; the spec leaves case policy
deployment-defined). -/
def leCodes : List Nat → List Nat → Bool
  | [], _ => true
  | _ :: _, [] => false
  | a :: as, b :: bs =>
    if a < b then true else if b < a then false else leCodes as bs

/-- The code points of a label. -/
def labelKey (s : String) : List Nat := s.data.map Char.toNat

/-- Ascending-by-label comparison used to model ORDER BY label. -/
def byLabel (a b : Int × String) : Prop :=
  leCodes (labelKey a.2) (labelKey b.2) = true

instance : DecidableRel byLabel := fun _ _ =>
  inferInstanceAs (Decidable (_ = true))

theorem leCodes_total : ∀ x y, leCodes x y = true ∨ leCodes y x = true := by
  intro x
  induction x with
  | nil => intro y; left; rfl
  | cons a as ih =>
    intro y
    cases y with
    | nil => right; rfl
    | cons b bs =>
      by_cases hab : a < b
      · left; simp [leCodes, hab]
      · by_cases hba : b < a
        · right; simp [leCodes, hba]
        · cases ih bs with
          | inl h => left; simp [leCodes, hab, hba, h]
          | inr h => right; simp [leCodes, hab, hba, h]

theorem leCodes_trans : ∀ x y z, leCodes x y = true → leCodes y z = true →
    leCodes x z = true := by
  intro x
  induction x with
  | nil => intro y z _ _; rfl
  | cons a as ih =>
    intro y z hxy hyz
    cases y with
    | nil => simp [leCodes] at hxy
    | cons b bs =>
      cases z with
      | nil => simp [leCodes] at hyz
      | cons c cs =>
        by_cases hab : a < b
        · by_cases hbc : b < c
          · simp [leCodes, lt_trans hab hbc]
          · by_cases hcb : c < b
            · simp [leCodes, hbc, hcb] at hyz
            · have hb : b = c := by omega
              subst hb
              simp [leCodes, hab]
        · by_cases hba : b < a
          · simp [leCodes, hab, hba] at hxy
          · have ha : a = b := by omega
            subst ha
            by_cases hac : a < c
            · simp [leCodes, hac]
            · by_cases hca : c < a
              · simp [leCodes, hac, hca] at hyz
              · have hc : a = c := by omega
                subst hc
                simp only [leCodes, lt_irrefl, if_false] at hxy hyz ⊢
                exact ih bs cs hxy hyz

instance : IsTotal (Int × String) byLabel :=
  ⟨fun a b => leCodes_total (labelKey a.2) (labelKey b.2)⟩

instance : IsTrans (Int × String) byLabel :=
  ⟨fun _ _ _ h1 h2 => leCodes_trans _ _ _ h1 h2⟩

/-- The result dict of TaxonomyOptions._possibilities when a target rank
exists: new_options.target, new_options.possibilities and clear. -/
structure PossResult where
  target : String
  possibilities : List (Int × String)
  clear : List String
  deriving DecidableEq

/-- Embeds TaxonomyOptions._possibilities (query.py:80-135).  The empty
dict return (complete hierarchy) is none.  The kingdom fast path
(query.py:114) issues a query with no ORDER BY, so it returns the kingdom
table in table order; the general path (query.py:120) groups the filtered
taxa by (rank id, label), joins the rank's ontology table and orders by
label.  Python truthiness of the amplicon filter: the filter is falsy
exactly when it is None. -/
def possibilitiesImpl (db : TaxonomyDB) (amplicon : Option (OpVal Int))
    (state : List (Option (OpVal Int))) : Option PossResult :=
  match determineTarget db.otus amplicon state with
  | none => none
  | some k =>
    let clear := (hierarchyAttrs.drop k).map (fun p => dropId p.1)
    if amplicon = none ∧ k = 0 then
      some ⟨dropId (hierarchyAttrs.getD k ("", fun _ => none)).1, db.kingdoms, clear⟩
    else
      let state2 := state.take k ++ List.replicate (7 - k) none
      let q0 := applyAmpliconFilter db.otus amplicon
      let q1 := (hierarchyAttrs.zip state2).foldl
        (fun acc p => applyOtuFilter p.1.2 acc p.2) q0
      let pairs := q1.filterMap (fun o =>
        (attrAt k o).bind (fun i =>
          (lookupLabel (tableAt db k) i).map (fun lbl => (i, lbl))))
      some ⟨dropId (hierarchyAttrs.getD k ("", fun _ => none)).1,
            List.insertionSort byLabel (dedupKeepFirst pairs), clear⟩

/-- Claim C6: whenever _possibilities determines a target rank at
hierarchy index k, the returned clear list is exactly the rank name at
index k followed by every deeper rank name, each with its _id suffix
stripped, in hierarchy order. -/
theorem clear_list_is_target_and_deeper (db : TaxonomyDB)
    (amplicon : Option (OpVal Int)) (state : List (Option (OpVal Int)))
    (k : Nat) (res : PossResult)
    (hk : determineTarget db.otus amplicon state = some k)
    (hres : possibilitiesImpl db amplicon state = some res) :
    res.clear = List.drop k
      ["kingdom", "phylum", "class", "order", "family", "genus", "species"] := by
  have hmap : hierarchyAttrs.map (fun p => dropId p.1) =
      ["kingdom", "phylum", "class", "order", "family", "genus", "species"] := by decide
  unfold possibilitiesImpl at hres
  rw [hk] at hres
  dsimp only at hres
  split at hres
  · have h2 : res = _ := (Option.some.inj hres).symm
    rw [h2]
    show (hierarchyAttrs.drop k).map (fun p => dropId p.1) = _
    rw [List.map_drop, hmap]
  · have h2 : res = _ := (Option.some.inj hres).symm
    rw [h2]
    show (hierarchyAttrs.drop k).map (fun p => dropId p.1) = _
    rw [List.map_drop, hmap]

/-- Witness for clear_list_is_target_and_deeper: one filled, matching
kingdom slot makes phylum the target; clear is phylum and deeper. -/
theorem clear_list_witness :
    (⟨"phylum", [], ["phylum", "class", "order", "family", "genus", "species"]⟩ : PossResult).clear
      = List.drop 1 ["kingdom", "phylum", "class", "order", "family", "genus", "species"] :=
  clear_list_is_target_and_deeper
    ⟨[exTaxon], [], [], [], [], [], [], []⟩ none
    [some ⟨some "is", some 1⟩, none, none, none, none, none, none] 1
    ⟨"phylum", [], ["phylum", "class", "order", "family", "genus", "species"]⟩
    (by decide) (by decide)

/-- A kingdom ontology table stored with labels out of order: no ORDER BY
means the fast path returns it exactly like this. -/
def exUnsortedDB : TaxonomyDB :=
  ⟨[], [(1, "b"), (2, "a")], [], [], [], [], [], []⟩

/-- The all-empty taxonomy state of length 7. -/
def exStateNone : List (Option (OpVal Int)) :=
  [none, none, none, none, none, none, none]

/-- Counterexample to claim C5: with no amplicon filter and the kingdom
rank as target, _possibilities takes the hard-coded kingdom fast path
(query.py:114-115), whose query has no ORDER BY; the possibilities come
back in table order, which is not ascending by label. -/
theorem possibilities_fastpath_not_sorted :
    (possibilitiesImpl exUnsortedDB none exStateNone).map PossResult.possibilities
      = some [(1, "b"), (2, "a")] ∧
    ¬ List.Sorted byLabel [((1 : Int), "b"), ((2 : Int), "a")] := by
  constructor
  · decide
  · intro h
    have := List.rel_of_sorted_cons h ((2 : Int), "a") (by simp)
    exact absurd this (by decide)

/-- Claim C5 amended: whenever _possibilities returns new options through
the general path — an amplicon filter is set, or the target rank is not
kingdom — the possibilities list is ordered ascending by ontology label.
The kingdom fast path (no amplicon, target kingdom) is exempt: it issues
a query without ORDER BY and returns the kingdom table in table order. -/
theorem possibilities_sorted_general (db : TaxonomyDB)
    (amplicon : Option (OpVal Int)) (state : List (Option (OpVal Int)))
    (res : PossResult)
    (hres : possibilitiesImpl db amplicon state = some res)
    (hnf : ¬ (amplicon = none ∧ determineTarget db.otus amplicon state = some 0)) :
    List.Sorted byLabel res.possibilities := by
  unfold possibilitiesImpl at hres
  cases hk : determineTarget db.otus amplicon state with
  | none => rw [hk] at hres; exact absurd hres (by simp)
  | some k =>
    rw [hk] at hres
    dsimp only at hres
    split at hres
    · rename_i hcond
      exact absurd ⟨hcond.1, hcond.2 ▸ hk⟩ hnf
    · have h2 : res = _ := (Option.some.inj hres).symm
      rw [h2]
      show List.Sorted byLabel (List.insertionSort byLabel _)
      exact List.sorted_insertionSort byLabel _

/-- A database for the witness: an amplicon filter is set, so the general
path runs even with the kingdom rank as target. -/
def exSortedDB : TaxonomyDB :=
  ⟨[exTaxon], [(1, "a"), (2, "b")], [], [], [], [], [], []⟩

theorem possibilities_sorted_general_witness :
    List.Sorted byLabel
      (⟨"kingdom", [((1 : Int), "a")],
        ["kingdom", "phylum", "class", "order", "family", "genus", "species"]⟩ : PossResult).possibilities :=
  possibilities_sorted_general exSortedDB (some ⟨some "is", some 10⟩) exStateNone
    ⟨"kingdom", [((1 : Int), "a")],
      ["kingdom", "phylum", "class", "order", "family", "genus", "species"]⟩
    (by decide) (by simp)

/-- A sample (site) row from class SampleContext in otu.py, restricted to
a representative subset of its contextual columns: every column of the
schema is nullable, floats are modelled as rationals, CIText columns as
strings. -/
structure SampleRow where
  id : Int
  x : Option Rat
  y : Option Rat
  elev : Option Rat
  soil_type : Option String
  deriving DecidableEq

/-- The typed value of a contextual column on a row (null for SQL NULL). -/
inductive FieldValue where
  | num (q : Rat)
  | str (s : String)
  | intv (n : Int)
  | date (d : Int)
  | null
  deriving DecidableEq

/-- getattr(SampleContext, field_name) on a row, for the embedded columns
(query.py:885): the term object stores the column, here looked up by
name. -/
def sampleField (name : String) (r : SampleRow) : FieldValue :=
  if name = "x" then match r.x with | some q => .num q | none => .null
  else if name = "y" then match r.y with | some q => .num q | none => .null
  else if name = "elev" then match r.elev with | some q => .num q | none => .null
  else if name = "soil_type" then match r.soil_type with | some s => .str s | none => .null
  else .null

/-- The operand payload of a ContextualFilterTerm subclass
(query.py:895-972): float range, date range (dates as day numbers),
substring, ontology id, id set. -/
inductive FilterTermKind where
  | floatRange (valFrom valTo : Rat)
  | dateRange (valFrom valTo : Int)
  | stringContains (valContains : String)
  | ontologyEquals (valIs : Int)
  | idInSet (valIsIn : List Int)
  deriving DecidableEq

/-- SQL LIKE-style containment used by field.contains(sub): true when sub
occurs in hay (an empty pattern matches every non-null value). -/
def sqlContains (hay sub : String) : Bool :=
  if sub = "" then true else (hay.splitOn sub).length > 1

/-- Three-valued SQL evaluation of get_conditions of each term subclass on
one field value: none is SQL NULL (a NULL column makes every comparison
NULL; an IN over the empty list compiles to a constant-false expression). -/
def getConditionEval (k : FilterTermKind) (v : FieldValue) : Option Bool :=
  match k, v with
  | .floatRange a b, .num q => some (decide (a ≤ q ∧ q ≤ b))
  | .dateRange a b, .date d => some (decide (a ≤ d ∧ d ≤ b))
  | .stringContains sub, .str s => some (sqlContains s sub)
  | .ontologyEquals n, .intv m => some (decide (m = n))
  | .idInSet ns, .intv m => some (ns.contains m)
  | .idInSet ns, _ => if ns.isEmpty then some false else none
  | _, _ => none

/-- Embeds the conditions property of ContextualFilterTerm (query.py:888):
for the operators isnot, notbetween and containsnot each condition is
wrapped in sqlalchemy.not_, which is SQL NOT (NULL stays NULL). -/
def conditionsEval (operator : String) (k : FilterTermKind) (v : FieldValue) : Option Bool :=
  if operator = "isnot" ∨ operator = "notbetween" ∨ operator = "containsnot" then
    (getConditionEval k v).map (fun b => !b)
  else
    getConditionEval k v

/-- A contextual filter term (field name, operator, operand payload). -/
structure CtxTerm where
  fieldName : String
  operator : String
  kind : FilterTermKind
  deriving DecidableEq

/-- A row passes a term when its condition evaluates to TRUE (SQL filter
semantics: FALSE and NULL rows are both dropped). -/
def termMatchesRow (t : CtxTerm) (r : SampleRow) : Bool :=
  match conditionsEval t.operator t.kind (sampleField t.fieldName r) with
  | some true => true
  | _ => false

/-- The corresponding positive operator of a negated one. -/
def positiveOf : String → String
  | "isnot" => "is"
  | "notbetween" => "between"
  | "containsnot" => "contains"
  | s => s

/-- Counterexample to claim C4: on a row whose field is NULL, the
notbetween term and the between term both evaluate to not-matched (SQL
NOT of NULL is NULL), so the negated term is not the logical negation of
the positive one on that row. -/
theorem negation_fails_on_null_row :
    ¬ ((termMatchesRow ⟨"elev", "notbetween", .floatRange 100 500⟩
          ⟨1, none, none, none, none⟩ = true) ↔
       ¬ (termMatchesRow ⟨"elev", "between", .floatRange 100 500⟩
          ⟨1, none, none, none, none⟩ = true)) := by decide

/-- Claim C4 amended: for every term kind, negated operator and row, if
the positive condition evaluates non-NULL on that row's field value, the
term built with the negated operator matches the row exactly when the
term built with the corresponding positive operator does not.  (Rows on
which the condition evaluates to SQL NULL — a NULL field under a
non-empty comparison — are matched by neither form.) -/
theorem negation_correct_on_nonnull (fieldName op : String) (k : FilterTermKind)
    (r : SampleRow) (b : Bool)
    (hop : op = "isnot" ∨ op = "notbetween" ∨ op = "containsnot")
    (hnn : getConditionEval k (sampleField fieldName r) = some b) :
    (termMatchesRow ⟨fieldName, op, k⟩ r = true ↔
      ¬ (termMatchesRow ⟨fieldName, positiveOf op, k⟩ r = true)) := by
  have hpos : ¬ (positiveOf op = "isnot" ∨ positiveOf op = "notbetween" ∨
      positiveOf op = "containsnot") := by
    rcases hop with h | h | h <;> subst h <;> simp [positiveOf]
  unfold termMatchesRow conditionsEval
  rw [hnn, if_pos hop, if_neg hpos]
  cases b <;> simp

/-- Witness for negation_correct_on_nonnull: elevation 300 lies in
[100, 500], so notbetween does not match where between does. -/
theorem negation_correct_witness :
    (termMatchesRow ⟨"elev", "notbetween", .floatRange 100 500⟩
        ⟨1, none, none, some 300, none⟩ = true) ↔
      ¬ (termMatchesRow ⟨"elev", "between", .floatRange 100 500⟩
        ⟨1, none, none, some 300, none⟩ = true) :=
  negation_correct_on_nonnull "elev" "notbetween" (.floatRange 100 500)
    ⟨1, none, none, some 300, none⟩ true (Or.inr (Or.inl rfl)) (by decide)

/-- The combination mode of a ContextualFilter; any other mode string
raises KeyError at construction (query.py:857), so only these two exist. -/
inductive CFMode where
  | andMode
  | orMode
  deriving DecidableEq

/-- Embeds class ContextualFilter (query.py:849): a mode, the distinguished
environment pre-filter, and the added terms in insertion order. -/
structure ContextualFilter where
  mode : CFMode
  environment_filter : Option (OpVal Rat)
  terms : List CtxTerm
  deriving DecidableEq

/-- Embeds apply_environment_filter = partial(apply_op_and_val_filter,
SampleContext.x) (query.py:999). -/
def applyEnvironmentFilter (q : List SampleRow) (opAndVal : Option (OpVal Rat)) :
    List SampleRow :=
  applyOpAndValFilter (fun r => r.x) q opAndVal

/-- Embeds ContextualFilter.apply (query.py:867): the environment filter
applies first, unconditionally; each term contributes its (single)
condition, the conditions are chained and combined under the mode's
boolean operator, and the query is filtered once with that expression.
With no terms the combined expression is SQLAlchemy's empty
BooleanClauseList, which legacy SQLAlchemy drops from the WHERE clause
(filter(or_()) and filter(and_()) are no-ops), so the filter step is the
identity.  A row passes a non-empty AND exactly when every condition is
TRUE, and a non-empty OR exactly when some condition is TRUE (SQL
three-valued logic: NULL conjuncts or disjuncts never make the row
pass). -/
def ContextualFilter.apply (f : ContextualFilter) (q : List SampleRow) :
    List SampleRow :=
  let q1 := applyEnvironmentFilter q f.environment_filter
  if f.terms.isEmpty then q1
  else
    q1.filter (fun r =>
      match f.mode with
      | .andMode => f.terms.all (fun t => termMatchesRow t r)
      | .orMode => f.terms.any (fun t => termMatchesRow t r))

/-- Claim C8: a ContextualFilter in or mode with an empty term list
neither errors nor vacuously matches every row: apart from the
unconditional environment pre-filter it is the identity on the query; in
particular with no environment filter it returns the query unchanged. -/
theorem empty_or_filter_is_identity (q : List SampleRow)
    (env : Option (OpVal Rat)) :
    ContextualFilter.apply ⟨CFMode.orMode, env, []⟩ q
        = applyEnvironmentFilter q env ∧
      ContextualFilter.apply ⟨CFMode.orMode, none, []⟩ q = q :=
  ⟨rfl, rfl⟩

/-- Embeds a SampleOTU (abundance edge) row (otu.py:417): composite key
(sample_id, otu_id), a raw count and the derived proportional
abundance. -/
structure SampleOTURow where
  sample_id : Int
  otu_id : Int
  count : Rat
  proportional_abundance : Rat
  deriving DecidableEq

/-- The relational store as seen by SampleQuery: taxa, samples and
abundance edges. -/
structure DB where
  otus : List OTURow
  samples : List SampleRow
  sampleOtus : List SampleOTURow
  deriving DecidableEq

/-- The OTUQueryParams handed to SampleQuery (query.py:160): the amplicon
filter (None models a falsy filter), the 7-slot taxonomy filter and the
contextual filter. -/
structure OTUQueryParams where
  amplicon_filter : Option (OpVal Int)
  taxonomy_filter : List (Option (OpVal Int))
  contextual_filter : ContextualFilter
  deriving DecidableEq

/-- Embeds SampleQuery._apply_taxonomy_filters (query.py:264): the
amplicon filter, then one OTU filter per hierarchy slot. -/
def applyTaxonomyFilters (otus : List OTURow) (amplicon : Option (OpVal Int))
    (tax : List (Option (OpVal Int))) : List OTURow :=
  (hierarchyAttrs.zip tax).foldl (fun acc p => applyOtuFilter p.1.2 acc p.2)
    (applyAmpliconFilter otus amplicon)

/-- The sample ids selected by the taxonomy subquery body (query.py:278):
SELECT DISTINCT sample_id FROM sample_otu JOIN otu, with the taxonomy
filters applied to the joined taxa. -/
def taxonomySubqueryIds (db : DB) (amplicon : Option (OpVal Int))
    (tax : List (Option (OpVal Int))) : List Int :=
  dedupKeepFirst ((db.sampleOtus.filter (fun so =>
    (applyTaxonomyFilters db.otus amplicon tax).any (fun o => o.id == so.otu_id))).map
      (fun so => so.sample_id))

/-- Embeds SampleQuery._build_taxonomy_subquery (query.py:270): when the
amplicon filter is falsy (None) and the first taxonomy slot is None, the
shortcut returns None — no subquery restriction at all. -/
def buildTaxonomySubquery (db : DB) (p : OTUQueryParams) : Option (List Int) :=
  if p.amplicon_filter = none ∧ p.taxonomy_filter.head? = some none then none
  else some (taxonomySubqueryIds db p.amplicon_filter p.taxonomy_filter)

/-- Modelled from the spec's counterfactual for claim C1: the taxonomy
subquery always built and applied, with no shortcut. -/
def buildTaxonomySubqueryNoShortcut (db : DB) (p : OTUQueryParams) :
    Option (List Int) :=
  some (taxonomySubqueryIds db p.amplicon_filter p.taxonomy_filter)

/-- Embeds SampleQuery._apply_filters (query.py:281): restrict to the
subquery's sample ids when a subquery was built, then apply the
contextual filter. -/
def applyFilters (ctx : ContextualFilter) (sampleQuery : List SampleRow)
    (taxonomySubquery : Option (List Int)) : List SampleRow :=
  ctx.apply
    (match taxonomySubquery with
     | none => sampleQuery
     | some ids => sampleQuery.filter (fun s => ids.contains s.id))

/-- Stable insertion sort by sample id, modelling ORDER BY
SampleContext.id. -/
def insertById (s : SampleRow) : List SampleRow → List SampleRow
  | [] => [s]
  | t :: ts => if s.id ≤ t.id then s :: t :: ts else t :: insertById s ts

/-- ORDER BY SampleContext.id over a result list. -/
def sortById : List SampleRow → List SampleRow
  | [] => []
  | s :: ss => insertById s (sortById ss)

/-- Embeds SampleQuery.matching_samples (query.py:234): full sample rows
passing the taxonomy subquery and the contextual filter, ordered by id. -/
def matchingSamples (db : DB) (p : OTUQueryParams) : List SampleRow :=
  sortById (applyFilters p.contextual_filter db.samples (buildTaxonomySubquery db p))

/-- matching_samples with the taxonomy subquery always built (the spec's
claimed-equivalent form, for claim C1). -/
def matchingSamplesNoShortcut (db : DB) (p : OTUQueryParams) : List SampleRow :=
  sortById (applyFilters p.contextual_filter db.samples (buildTaxonomySubqueryNoShortcut db p))

/-- Embeds SampleQuery.matching_sample_ids_and_environment (query.py:192):
the same filtered, id-ordered sample set projected to (id, x) pairs.  The
source projects SampleContext._x, an attribute the schema does not define
(otu.py defines x; the _-prefixed names were reverted), so the evidently
intended x column is used. -/
def matchingSampleIdsAndEnvironment (db : DB) (p : OTUQueryParams) :
    List (Int × Option Rat) :=
  (sortById (applyFilters p.contextual_filter db.samples (buildTaxonomySubquery db p))).map
    (fun s => (s.id, s.x))

/-- matching_sample_ids_and_environment with the taxonomy subquery always
built (for claim C1). -/
def matchingSampleIdsAndEnvironmentNoShortcut (db : DB) (p : OTUQueryParams) :
    List (Int × Option Rat) :=
  (sortById (applyFilters p.contextual_filter db.samples
    (buildTaxonomySubqueryNoShortcut db p))).map (fun s => (s.id, s.x))

/-- A sample with an abundance edge into exTaxon. -/
def exSample : SampleRow := ⟨1, some 0, none, some 200, some "clay"⟩

/-- A one-taxon, one-sample, one-edge store. -/
def exC1DB : DB := ⟨[exTaxon], [exSample], [⟨1, 1, 5, 0⟩]⟩

/-- A filter state in the shortcut's domain: amplicon unset, first
taxonomy slot empty, but the class rank (a deeper slot) constrained to a
value no taxon has. -/
def exC1Params : OTUQueryParams :=
  ⟨none, [none, none, some ⟨some "is", some 2⟩, none, none, none, none],
   ⟨CFMode.andMode, none, []⟩⟩

/-- Counterexample to claim C1: in this state the shortcut fires (amplicon
unset, first slot empty), _build_taxonomy_subquery returns None and
matching_samples keeps the sample — but building and applying the
subquery would filter the taxa by the constrained class rank, leaving no
matching taxa and hence no samples.  The shortcut is not
behavior-preserving when a deeper slot is constrained. -/
theorem shortcut_not_behavior_preserving :
    (exC1Params.amplicon_filter = none ∧
      exC1Params.taxonomy_filter.head? = some none) ∧
    matchingSamples exC1DB exC1Params ≠ matchingSamplesNoShortcut exC1DB exC1Params := by
  decide

theorem applyOpAndValFilter_none_value {ρ α : Type} [DecidableEq α]
    (attr : ρ → Option α) (q : List ρ) (ov : Option (OpVal α))
    (h : ov.bind (fun o => o.value) = none) :
    applyOpAndValFilter attr q ov = q := by
  match ov with
  | none => rfl
  | some o =>
    simp only [Option.bind] at h
    simp [applyOpAndValFilter, h]

theorem applyTaxonomyFilters_no_constraint
    (hier : List (String × (OTURow → Option Int))) :
    ∀ (tax : List (Option (OpVal Int))) (q : List OTURow),
    (∀ s ∈ tax, slotVal s = none) →
    (hier.zip tax).foldl (fun acc p => applyOtuFilter p.1.2 acc p.2) q = q := by
  induction hier with
  | nil => intro tax q _; rfl
  | cons a hs ih =>
    intro tax q hall
    cases tax with
    | nil => rfl
    | cons slot ss =>
      have h1 : applyOtuFilter a.2 q slot = q :=
        applyOpAndValFilter_none_value a.2 q slot (hall slot (by simp))
      simp only [List.zip_cons_cons, List.foldl_cons, h1]
      exact ih ss q (fun s hs2 => hall s (by simp [hs2]))

theorem mem_dedupKeepFirst {α : Type} [DecidableEq α] (x : α) :
    ∀ l : List α, x ∈ dedupKeepFirst l ↔ x ∈ l := by
  intro l
  induction l with
  | nil => simp [dedupKeepFirst]
  | cons a as ih =>
    simp only [dedupKeepFirst, List.mem_cons, List.mem_filter]
    constructor
    · rintro (h | ⟨h1, _⟩)
      · left; exact h
      · right; exact ih.mp h1
    · rintro (h | h)
      · left; exact h
      · by_cases hxa : x = a
        · left; exact hxa
        · right; exact ⟨ih.mpr h, by simp [hxa]⟩

/-- Claim C1 amended: the shortcut is behavior-preserving on the states it
covers provided no taxonomy slot carries a value (each slot is None or
has value None) and every sample has at least one abundance edge whose
taxon exists in the taxon table.  Without the coverage hypothesis the
built subquery would drop samples having no abundance edges; with a
deeper slot constrained it would drop samples having no matching taxa
(see shortcut_not_behavior_preserving). -/
theorem shortcut_behavior_preserving_amended (db : DB) (p : OTUQueryParams)
    (hamp : p.amplicon_filter = none)
    (hall : ∀ s ∈ p.taxonomy_filter, slotVal s = none)
    (hcover : ∀ s ∈ db.samples, ∃ so ∈ db.sampleOtus, so.sample_id = s.id ∧
      ∃ o ∈ db.otus, o.id = so.otu_id) :
    matchingSamples db p = matchingSamplesNoShortcut db p ∧
      matchingSampleIdsAndEnvironment db p
        = matchingSampleIdsAndEnvironmentNoShortcut db p := by
  have hfilters : applyTaxonomyFilters db.otus p.amplicon_filter p.taxonomy_filter
      = db.otus := by
    unfold applyTaxonomyFilters
    rw [hamp]
    exact applyTaxonomyFilters_no_constraint hierarchyAttrs p.taxonomy_filter _ hall
  have hids : ∀ s ∈ db.samples,
      (taxonomySubqueryIds db p.amplicon_filter p.taxonomy_filter).contains s.id = true := by
    intro s hs
    obtain ⟨so, hso, hsid, o, ho, hoid⟩ := hcover s hs
    have hkept : so ∈ db.sampleOtus.filter (fun so =>
        (applyTaxonomyFilters db.otus p.amplicon_filter p.taxonomy_filter).any
          (fun o => o.id == so.otu_id)) := by
      rw [List.mem_filter]
      refine ⟨hso, ?_⟩
      rw [hfilters, List.any_eq_true]
      exact ⟨o, ho, by simp [hoid]⟩
    have hmem : s.id ∈ taxonomySubqueryIds db p.amplicon_filter p.taxonomy_filter := by
      unfold taxonomySubqueryIds
      rw [mem_dedupKeepFirst]
      exact List.mem_map.mpr ⟨so, hkept, hsid⟩
    simpa [List.contains] using hmem
  have hbase : (match buildTaxonomySubquery db p with
        | none => db.samples
        | some ids => db.samples.filter (fun s => ids.contains s.id))
      = (match buildTaxonomySubqueryNoShortcut db p with
        | none => db.samples
        | some ids => db.samples.filter (fun s => ids.contains s.id)) := by
    unfold buildTaxonomySubquery buildTaxonomySubqueryNoShortcut
    by_cases hc : (p.amplicon_filter = none ∧ p.taxonomy_filter.head? = some none)
    · rw [if_pos hc]
      exact (List.filter_eq_self.mpr hids).symm
    · rw [if_neg hc]
  constructor
  · unfold matchingSamples matchingSamplesNoShortcut applyFilters
    rw [hbase]
  · unfold matchingSampleIdsAndEnvironment matchingSampleIdsAndEnvironmentNoShortcut applyFilters
    rw [hbase]

/-- A store and state in the shortcut's domain where the hypotheses of the
amended claim hold. -/
def exC1Params2 : OTUQueryParams :=
  ⟨none, [none, none, none, none, none, none, none], ⟨CFMode.andMode, none, []⟩⟩

theorem shortcut_behavior_preserving_witness :
    matchingSamples exC1DB exC1Params2 = matchingSamplesNoShortcut exC1DB exC1Params2 :=
  (shortcut_behavior_preserving_amended exC1DB exC1Params2 rfl (by decide) (by decide)).1

/-- The WHERE count >= 1 predicate of the totals query of
EdnaPostImport._normalize_abundances (query.py:796), restricted to one
sample. -/
def countQualifies (sid : Int) (r : SampleOTURow) : Bool :=
  r.sample_id == sid && decide ((1 : Rat) ≤ r.count)

/-- The per-sample total of _normalize_abundances: SUM(count) over that
sample's edges with count >= 1 (query.py:796). -/
def sampleTotalFor (rows : List SampleOTURow) (sid : Int) : Rat :=
  ((rows.filter (countQualifies sid)).map (fun r => r.count)).sum

/-- Whether a sample appears in sample_totals_dict: it has at least one
edge with count >= 1. -/
def hasStandardisedRow (rows : List SampleOTURow) (sid : Int) : Bool :=
  rows.any (countQualifies sid)

/-- Embeds EdnaPostImport._normalize_abundances (query.py:789-800): for
every sample key of the totals dict (samples with some count >= 1 edge),
every edge of that sample — the inner query has no count restriction —
gets proportional_abundance = count / total.  Edges of samples absent
from the dict are never visited. -/
def normalizeAbundances (rows : List SampleOTURow) : List SampleOTURow :=
  rows.map (fun r =>
    if hasStandardisedRow rows r.sample_id then
      { r with proportional_abundance := r.count / sampleTotalFor rows r.sample_id }
    else r)

/-- The rational one half, as a normalised numerator/denominator pair. -/
def half : Rat := ⟨1, 2, by decide, by decide⟩

/-- One sample with a standardised edge (count 2) and a sub-unit edge
(count 1/2). -/
def exAbundances : List SampleOTURow := [⟨1, 1, 2, 0⟩, ⟨1, 2, half, 0⟩]

/-- Counterexample to claim C9: the sample has an edge with count >= 1,
so _normalize_abundances rewrites every one of its edges — the sub-unit
edge gets (1/2) / 2 = 1/4, not its count 1/2 unchanged. -/
theorem normalize_overwrites_small_counts :
    ¬ (∀ r ∈ normalizeAbundances exAbundances, r.count < 1 →
        r.proportional_abundance = r.count) := by
  intro h
  have ht : sampleTotalFor exAbundances (1 : Int) = 2 := by
    unfold sampleTotalFor
    rw [show exAbundances.filter (countQualifies 1) = [⟨1, 1, 2, 0⟩] from by decide]
    simp
  have hmem : (⟨1, 2, half, half / 2⟩ : SampleOTURow) ∈ normalizeAbundances exAbundances := by
    unfold normalizeAbundances
    apply List.mem_map.mpr
    refine ⟨⟨1, 2, half, 0⟩, by simp [exAbundances], ?_⟩
    have hh : hasStandardisedRow exAbundances (1 : Int) = true := by decide
    simp only [hh, ht, if_pos]
  have heq := h _ hmem (by decide)
  have h2 : half = half * 2 :=
    (div_eq_iff (by norm_num : (2 : Rat) ≠ 0)).mp heq
  have h0 : half = 0 := by linarith
  exact absurd h0 (by decide)

theorem filter_map_pred_inv {α : Type} (f : α → α) (p : α → Bool)
    (hp : ∀ a, p (f a) = p a) :
    ∀ l : List α, (l.map f).filter p = (l.filter p).map f := by
  intro l
  induction l with
  | nil => rfl
  | cons a as ih =>
    simp only [List.map_cons, List.filter_cons, hp a]
    by_cases hpa : p a = true <;> simp [hpa, ih]

theorem normalize_pred_inv (rows : List SampleOTURow) (p : SampleOTURow → Bool)
    (hp : ∀ r v, p { r with proportional_abundance := v } = p r) (r : SampleOTURow) :
    p (if hasStandardisedRow rows r.sample_id then
        { r with proportional_abundance := r.count / sampleTotalFor rows r.sample_id }
      else r) = p r := by
  by_cases h : hasStandardisedRow rows r.sample_id = true <;> simp [h, hp]

theorem sum_map_count_div (T : Rat) :
    ∀ l : List SampleOTURow,
    (l.map (fun r => r.count / T)).sum = (l.map (fun r => r.count)).sum / T := by
  intro l
  induction l with
  | nil => simp
  | cons a as ih => simp [ih, add_div]

theorem sum_pos_of_all_ge_one :
    ∀ l : List Rat, l ≠ [] → (∀ x ∈ l, (1 : Rat) ≤ x) → 0 < l.sum := by
  intro l hne hall
  cases l with
  | nil => exact absurd rfl hne
  | cons a as =>
    have ha : (1 : Rat) ≤ a := hall a (by simp)
    have has : (0 : Rat) ≤ as.sum :=
      List.sum_nonneg (fun x hx => le_trans zero_le_one (hall x (by simp [hx])))
    simp only [List.sum_cons]
    linarith

theorem sampleTotal_pos (rows : List SampleOTURow) (sid : Int)
    (hhas : hasStandardisedRow rows sid = true) :
    0 < sampleTotalFor rows sid := by
  unfold sampleTotalFor
  apply sum_pos_of_all_ge_one
  · obtain ⟨r, hr, hq⟩ := List.any_eq_true.mp hhas
    have : r ∈ rows.filter (countQualifies sid) := List.mem_filter.mpr ⟨hr, hq⟩
    intro hemp
    rw [List.map_eq_nil_iff] at hemp
    rw [hemp] at this
    exact absurd this (List.not_mem_nil r)
  · intro x hx
    obtain ⟨r, hr, hrx⟩ := List.mem_map.mp hx
    have := (List.mem_filter.mp hr).2
    rw [countQualifies, Bool.and_eq_true] at this
    exact hrx ▸ of_decide_eq_true this.2

/-- Claim C9 amended: after _normalize_abundances, for a sample with at
least one count >= 1 edge, the proportional abundances of its count >= 1
edges sum to exactly 1 (in exact arithmetic) and every one of its edges —
including those with count < 1 — carries count / (sum of its count >= 1
counts); edges of samples with no count >= 1 edge are left entirely
unchanged (they keep their stored proportional_abundance, not their
count). -/
theorem normalize_abundances_amended (rows : List SampleOTURow) (sid : Int) :
    (hasStandardisedRow rows sid = true →
      (((normalizeAbundances rows).filter (countQualifies sid)).map
          (fun r => r.proportional_abundance)).sum = 1 ∧
      (∀ r ∈ normalizeAbundances rows, r.sample_id = sid →
        r.proportional_abundance = r.count / sampleTotalFor rows sid)) ∧
    (hasStandardisedRow rows sid = false →
      (normalizeAbundances rows).filter (fun r => r.sample_id == sid)
        = rows.filter (fun r => r.sample_id == sid)) := by
  constructor
  · intro hhas
    constructor
    · have hcomm : (normalizeAbundances rows).filter (countQualifies sid)
          = (rows.filter (countQualifies sid)).map (fun r =>
              if hasStandardisedRow rows r.sample_id then
                { r with proportional_abundance := r.count / sampleTotalFor rows r.sample_id }
              else r) := by
        unfold normalizeAbundances
        exact filter_map_pred_inv _ _
          (normalize_pred_inv rows _ (fun r v => by simp [countQualifies])) rows
      rw [hcomm, List.map_map]
      have hmapeq : ((rows.filter (countQualifies sid)).map
          ((fun r => r.proportional_abundance) ∘ (fun r =>
            if hasStandardisedRow rows r.sample_id then
              { r with proportional_abundance := r.count / sampleTotalFor rows r.sample_id }
            else r)))
          = (rows.filter (countQualifies sid)).map (fun r => r.count / sampleTotalFor rows sid) := by
        apply List.map_congr_left
        intro r hr
        have hq := (List.mem_filter.mp hr).2
        rw [countQualifies, Bool.and_eq_true] at hq
        have hsid : r.sample_id = sid := by simpa using hq.1
        simp only [Function.comp, hsid, hhas, if_pos]
      rw [hmapeq, sum_map_count_div]
      exact div_self (ne_of_gt (sampleTotal_pos rows sid hhas))
    · intro r hr hsid
      obtain ⟨r0, hr0, hfr⟩ := List.mem_map.mp hr
      have hsid0 : r0.sample_id = sid := by
        by_cases h : hasStandardisedRow rows r0.sample_id = true <;>
          simp [h] at hfr <;> rw [← hfr] at hsid <;> exact hsid
      rw [← hfr]
      simp [hsid0, hhas]
  · intro hno
    have hcomm : (normalizeAbundances rows).filter (fun r => r.sample_id == sid)
        = (rows.filter (fun r => r.sample_id == sid)).map (fun r =>
            if hasStandardisedRow rows r.sample_id then
              { r with proportional_abundance := r.count / sampleTotalFor rows r.sample_id }
            else r) := by
      unfold normalizeAbundances
      exact filter_map_pred_inv _ _
        (normalize_pred_inv rows _ (fun r v => by simp)) rows
    rw [hcomm]
    have : ∀ r ∈ rows.filter (fun r => r.sample_id == sid),
        (if hasStandardisedRow rows r.sample_id then
          { r with proportional_abundance := r.count / sampleTotalFor rows r.sample_id }
        else r) = r := by
      intro r hr
      have hsid : r.sample_id = sid := by
        simpa using (List.mem_filter.mp hr).2
      rw [hsid, hno]
      simp
    rw [List.map_congr_left this]
    simp

/-- Witness for normalize_abundances_amended, on exAbundances: the
count >= 1 edge carries the whole mass. -/
theorem normalize_abundances_witness :
    (((normalizeAbundances exAbundances).filter (countQualifies 1)).map
        (fun r => r.proportional_abundance)).sum = 1 :=
  ((normalize_abundances_amended exAbundances 1).1 (by decide)).1

/-- 2^32, the word modulus of SHA-256. -/
def w32 : Nat := 4294967296

/-- 32-bit right rotation. -/
def rotr32 (n x : Nat) : Nat :=
  (x >>> n) ||| ((x % (2 ^ n)) <<< (32 - n))

def bsig0 (x : Nat) : Nat := (rotr32 2 x) ^^^ (rotr32 13 x) ^^^ (rotr32 22 x)

def bsig1 (x : Nat) : Nat := (rotr32 6 x) ^^^ (rotr32 11 x) ^^^ (rotr32 25 x)

def ssig0 (x : Nat) : Nat := (rotr32 7 x) ^^^ (rotr32 18 x) ^^^ (x >>> 3)

def ssig1 (x : Nat) : Nat := (rotr32 17 x) ^^^ (rotr32 19 x) ^^^ (x >>> 10)

def chF (e f g : Nat) : Nat := (e &&& f) ^^^ ((e ^^^ 4294967295) &&& g)

def majF (a b c : Nat) : Nat := (a &&& b) ^^^ (a &&& c) ^^^ (b &&& c)

/-- The SHA-256 round constants. -/
def shaK : List Nat :=
  [1116352408, 1899447441, 3049323471, 3921009573, 961987163, 1508970993, 2453635748, 2870763221,
   3624381080, 310598401, 607225278, 1426881987, 1925078388, 2162078206, 2614888103, 3248222580,
   3835390401, 4022224774, 264347078, 604807628, 770255983, 1249150122, 1555081692, 1996064986,
   2554220882, 2821834349, 2952996808, 3210313671, 3336571891, 3584528711, 113926993, 338241895,
   666307205, 773529912, 1294757372, 1396182291, 1695183700, 1986661051, 2177026350, 2456956037,
   2730485921, 2820302411, 3259730800, 3345764771, 3516065817, 3600352804, 4094571909, 275423344,
   430227734, 506948616, 659060556, 883997877, 958139571, 1322822218, 1537002063, 1747873779,
   1955562222, 2024104815, 2227730452, 2361852424, 2428436474, 2756734187, 3204031479, 3329325298]

/-- The eight SHA-256 working registers. -/
structure Hs where
  a : Nat
  b : Nat
  c : Nat
  d : Nat
  e : Nat
  f : Nat
  g : Nat
  h : Nat
  deriving DecidableEq

/-- The SHA-256 initial hash value. -/
def initHs : Hs :=
  ⟨1779033703, 3144134277, 1013904242, 2773480762, 1359893119, 2600822924, 528734635, 1541459225⟩

def shaRound (st : Hs) (kw : Nat × Nat) : Hs :=
  let t1 := (st.h + bsig1 st.e + chF st.e st.f st.g + kw.1 + kw.2) % w32
  let t2 := (bsig0 st.a + majF st.a st.b st.c) % w32
  ⟨(t1 + t2) % w32, st.a, st.b, st.c, (st.d + t1) % w32, st.e, st.f, st.g⟩

/-- Extend the 16 message-schedule words to 64 (fuel-driven so the kernel
can reduce it). -/
def extendSchedule : Nat → List Nat → List Nat
  | 0, ws => ws
  | n + 1, ws =>
    let len := ws.length
    let nw := (ws.getD (len - 16) 0 + ssig0 (ws.getD (len - 15) 0)
      + ws.getD (len - 7) 0 + ssig1 (ws.getD (len - 2) 0)) % w32
    extendSchedule n (ws ++ [nw])

/-- Big-endian bytes to 32-bit words. -/
def bytesToWords : Nat → List Nat → List Nat
  | 0, _ => []
  | _, [] => []
  | n + 1, b0 :: b1 :: b2 :: b3 :: rest =>
    (((b0 * 256 + b1) * 256 + b2) * 256 + b3) :: bytesToWords n rest
  | _ + 1, _ => []

def processBlock (st : Hs) (block : List Nat) : Hs :=
  let ws := extendSchedule 48 (bytesToWords 16 block)
  let fin := (shaK.zip ws).foldl shaRound st
  ⟨(st.a + fin.a) % w32, (st.b + fin.b) % w32, (st.c + fin.c) % w32, (st.d + fin.d) % w32,
   (st.e + fin.e) % w32, (st.f + fin.f) % w32, (st.g + fin.g) % w32, (st.h + fin.h) % w32⟩

def shaBlocks : Nat → Hs → List Nat → Hs
  | 0, st, _ => st
  | _, st, [] => st
  | n + 1, st, bytes => shaBlocks n (processBlock st (bytes.take 64)) (bytes.drop 64)

/-- SHA-256 padding: 0x80, zeros to 56 mod 64, 64-bit big-endian bit
length. -/
def shaPad (msg : List Nat) : List Nat :=
  let L := msg.length
  let padLen := (119 - L % 64) % 64
  let bitLen := L * 8
  msg ++ [128] ++ List.replicate padLen 0 ++
    [(bitLen >>> 56) % 256, (bitLen >>> 48) % 256, (bitLen >>> 40) % 256, (bitLen >>> 32) % 256,
     (bitLen >>> 24) % 256, (bitLen >>> 16) % 256, (bitLen >>> 8) % 256, bitLen % 256]

/-- SHA-256 of a byte sequence, as eight 32-bit words. -/
def sha256Words (msg : List Nat) : List Nat :=
  let padded := shaPad msg
  let st := shaBlocks padded.length initHs padded
  [st.a, st.b, st.c, st.d, st.e, st.f, st.g, st.h]

def hexDigit (n : Nat) : Char := Char.ofNat (if n < 10 then 48 + n else 87 + n)

def wordHex (w : Nat) : String :=
  String.mk ((List.range 8).map (fun i => hexDigit ((w >>> ((7 - i) * 4)) % 16)))

/-- hashlib sha256(...).hexdigest(). -/
def sha256Hex (msg : List Nat) : String :=
  String.join ((sha256Words msg).map wordHex)

/-- The UTF-8 bytes of a string; every string hashed by the engine is
ASCII, where UTF-8 bytes are exactly the code points. -/
def strBytes (s : String) : List Nat := s.data.map Char.toNat

/-- FIPS 180-4 test vector, validating the SHA-256 embedding. -/
theorem sha256Hex_abc :
    sha256Hex (strBytes "abc")
      = "ba7816bf8f01cfea414140de5dae2223b00361a396177a9cb410ff61f20015ad" := by decide

/-- The single-quote character, used by Python reprs. -/
def sq : String := String.singleton (Char.ofNat 39)

/-- Python repr of an optional string (repr(None) is None; the strings
occurring in filters need no escaping). -/
def pyReprOptStr : Option String → String
  | none => "None"
  | some s => sq ++ s ++ sq

/-- Python repr of an optional int. -/
def pyReprOptInt : Option Int → String
  | none => "None"
  | some n => toString n

/-- Python repr of a cleaned filter dict.  views.py builds every filter
via get_operator_and_int_value as OrderedDict((operator, ...), (value,
...)), whose repr is OrderedDict([(key, value), ...]); None stays None.
(An OpVal with no operator key is rendered with operator None; cleaned
filters always carry both keys, the operator defaulting to =.) -/
def pyReprOptOpValInt : Option (OpVal Int) → String
  | none => "None"
  | some ov =>
    "OrderedDict([(" ++ sq ++ "operator" ++ sq ++ ", " ++ pyReprOptStr ov.operator
      ++ "), (" ++ sq ++ "value" ++ sq ++ ", " ++ pyReprOptInt ov.value ++ ")])"

/-- Python repr of the taxonomy filter: the repr of a list. -/
def pyReprTaxonomy (tax : List (Option (OpVal Int))) : String :=
  "[" ++ String.intercalate ", " (tax.map pyReprOptOpValInt) ++ "]"

/-- Python repr of the environment filter dict (its value column is x, a
float; numerals are rendered through toString, which agrees with Python
on integral values — no theorem depends on the rendering of non-integral
operands). -/
def pyReprOptOpValRat : Option (OpVal Rat) → String
  | none => "None"
  | some ov =>
    "OrderedDict([(" ++ sq ++ "operator" ++ sq ++ ", " ++ pyReprOptStr ov.operator
      ++ "), (" ++ sq ++ "value" ++ sq ++ ", "
      ++ (match ov.value with | none => "None" | some q => toString q) ++ ")])"

/-- The repr of each ContextualFilterTerm subclass (query.py:903, 920,
935, 949, 966), all via %s formatting of the stored fields.  Float and
date operands are rendered through toString; Python renders floats with a
trailing .0 and dates as ISO strings, a difference no theorem depends
on. -/
def pyReprTerm (t : CtxTerm) : String :=
  match t.kind with
  | .floatRange a b =>
    "<TermFloat(" ++ t.fieldName ++ "," ++ t.operator ++ "," ++ toString a ++ ","
      ++ toString b ++ ")>"
  | .dateRange a b =>
    "<TermDate(" ++ t.fieldName ++ "," ++ t.operator ++ "," ++ toString a ++ ","
      ++ toString b ++ ")>"
  | .stringContains s =>
    "<TermString(" ++ t.fieldName ++ "," ++ t.operator ++ "," ++ s ++ ")>"
  | .ontologyEquals n =>
    "<TermOntology(" ++ t.fieldName ++ "," ++ t.operator ++ "," ++ toString n ++ ")>"
  | .idInSet ns =>
    "<TermSampleID(" ++ t.fieldName ++ "," ++ t.operator ++ ",["
      ++ String.intercalate ", " (ns.map toString) ++ "])>"

/-- The mode string of a ContextualFilter. -/
def modeStr : CFMode → String
  | .andMode => "and"
  | .orMode => "or"

/-- Embeds ContextualFilter.__repr__ (query.py:861): the mode, the repr of
the environment filter, and the term reprs joined by commas, in insertion
order.  (The format string of the source really does close with ]> and no
closing parenthesis.) -/
def pyReprContextualFilter (f : ContextualFilter) : String :=
  "<ContextualFilter(" ++ modeStr f.mode ++ ",env[" ++ pyReprOptOpValRat f.environment_filter
    ++ "],[" ++ String.intercalate "," (f.terms.map pyReprTerm) ++ "]>"

/-- The cache-key preimage of SampleQuery._q_all_cached (query.py:177):
the topic string and the reprs of the three filter components. -/
def sampleQueryHashStr (topic : String) (p : OTUQueryParams) : String :=
  "SampleQuery:cached:" ++ topic ++ ":" ++ pyReprOptOpValInt p.amplicon_filter ++ ":"
    ++ pyReprTaxonomy p.taxonomy_filter ++ ":" ++ pyReprContextualFilter p.contextual_filter

/-- The cache fingerprint of SampleQuery._q_all_cached (query.py:181):
sha256 hexdigest of the utf8-encoded preimage. -/
def sampleQueryCacheKey (topic : String) (p : OTUQueryParams) : String :=
  sha256Hex (strBytes (sampleQueryHashStr topic p))

def exTermA : CtxTerm := ⟨"elev", "is", .ontologyEquals 3⟩

def exTermB : CtxTerm := ⟨"elev", "is", .ontologyEquals 4⟩

def exFPParams1 : OTUQueryParams :=
  ⟨none, [none, none, none, none, none, none, none],
   ⟨CFMode.orMode, none, [exTermA, exTermB]⟩⟩

def exFPParams2 : OTUQueryParams :=
  ⟨none, [none, none, none, none, none, none, none],
   ⟨CFMode.orMode, none, [exTermB, exTermA]⟩⟩

/-- Validation: the embedded preimage equals the string CPython builds for
these parameters. -/
theorem sampleQueryHashStr_validation :
    sampleQueryHashStr "matching_samples" exFPParams1 =
      "SampleQuery:cached:matching_samples:None:[None, None, None, None, None, None, None]:<ContextualFilter(or,env[None],[<TermOntology(elev,is,3)>,<TermOntology(elev,is,4)>]>" := by
  decide

/-- Validation: the embedded fingerprint equals hashlib's hexdigest of
that preimage. -/
theorem sampleQueryCacheKey_validation :
    sampleQueryCacheKey "matching_samples" exFPParams1 =
      "52235a1c003797dccdec568793b4444f3d1ff79ce31f56b84f5530204a1ea062" := by
  decide

/-- Counterexample to claim C2: two ContextualFilters with the same mode,
the same environment filter and the same set of terms, added in the two
insertion orders, yield different _q_all_cached fingerprints — the
preimage concatenates term reprs in insertion order, and the sha256
digests differ. -/
theorem fingerprint_depends_on_insertion_order :
    exFPParams1.contextual_filter.mode = exFPParams2.contextual_filter.mode ∧
    exFPParams1.contextual_filter.environment_filter
      = exFPParams2.contextual_filter.environment_filter ∧
    exFPParams1.contextual_filter.terms.Perm exFPParams2.contextual_filter.terms ∧
    sampleQueryCacheKey "matching_samples" exFPParams1
      ≠ sampleQueryCacheKey "matching_samples" exFPParams2 := by
  refine ⟨rfl, rfl, List.Perm.swap exTermB exTermA [], by decide⟩

/-- Claim C2 amended: the fingerprint is a function of the topic and the
filter components alone — equal amplicon filter, equal taxonomy filter,
equal mode, equal environment filter and the terms in the same insertion
order give the same fingerprint; term order does change it (see
fingerprint_depends_on_insertion_order). -/
theorem fingerprint_function_of_components (topic : String) (p q : OTUQueryParams)
    (ha : p.amplicon_filter = q.amplicon_filter)
    (ht : p.taxonomy_filter = q.taxonomy_filter)
    (hm : p.contextual_filter.mode = q.contextual_filter.mode)
    (he : p.contextual_filter.environment_filter = q.contextual_filter.environment_filter)
    (hterms : p.contextual_filter.terms = q.contextual_filter.terms) :
    sampleQueryCacheKey topic p = sampleQueryCacheKey topic q := by
  have hcf : p.contextual_filter = q.contextual_filter := by
    cases hc1 : p.contextual_filter
    cases hc2 : q.contextual_filter
    rw [hc1, hc2] at hm he hterms
    simp only at hm he hterms
    rw [hm, he, hterms]
  unfold sampleQueryCacheKey sampleQueryHashStr
  rw [ha, ht, hcf]

theorem fingerprint_function_of_components_witness :
    sampleQueryCacheKey "matching_samples" exFPParams1
      = sampleQueryCacheKey "matching_samples" exFPParams1 :=
  fingerprint_function_of_components "matching_samples" exFPParams1 exFPParams1
    rfl rfl rfl rfl rfl

/-- The search_results cache: a Django string-keyed cache, modelled as an
association list of key/value entries (values here are the cached
matching_samples result lists). -/
structure SearchCache where
  entries : List (String × List SampleRow)
  deriving DecidableEq

/-- A cache with no entries. -/
def emptyCache : SearchCache := ⟨[]⟩

/-- cache.get(key): the stored value, or miss (None). -/
def cacheGet (c : SearchCache) (key : String) : Option (List SampleRow) :=
  (c.entries.find? (fun e => e.1 == key)).map (fun e => e.2)

/-- Embeds SampleQuery._q_all_cached (query.py:175-189) for a query whose
rows are samples.  result = cache.get(key); if not result — a miss, or a
cached falsy (empty) value — the query is executed (third component
true).  The cache.set call of the source is commented out (query.py:188,
"w: Warrick: comment out cache for testing"), so the cache state is
returned unchanged on every path. -/
def qAllCachedSamples (c : SearchCache) (key : String) (queryAll : List SampleRow) :
    List SampleRow × SearchCache × Bool :=
  match cacheGet c key with
  | some r => if r = [] then (queryAll, c, true) else (r, c, false)
  | none => (queryAll, c, true)

/-- matching_samples through its _q_all_cached wrapper (query.py:234-238):
result, cache state after the call, and whether the persistence query
ran. -/
def matchingSamplesCached (db : DB) (p : OTUQueryParams) (c : SearchCache) :
    List SampleRow × SearchCache × Bool :=
  qAllCachedSamples c (sampleQueryCacheKey "matching_samples" p) (matchingSamples db p)

/-- Claim C3, as the code behaves: because cache.set is commented out, the
first matching_samples call leaves the cache unchanged, and a second call
with identical parameters executes the persistence query again — it is
never a cache hit, contradicting the claimed hit-on-second-call. -/
theorem matching_samples_second_call_not_hit (db : DB) (p : OTUQueryParams) :
    (matchingSamplesCached db p emptyCache).2 = (emptyCache, true) ∧
    (matchingSamplesCached db p (matchingSamplesCached db p emptyCache).2.1).2.2 = true :=
  ⟨rfl, rfl⟩

end Edna
